import Mathlib

/-!
Verification development for the PK2 archive reader engine.

The repository ships only packaging glue and an example caller; the archive
engine itself (cipher, record codec, block store, directory tree, extractor
facade) is referenced as an external native component.  Every definition
below is therefore modelled from the specification document of that engine
(record layout, decryption scheme, chained block traversal, path resolution,
content extraction and the error taxonomy).  Field widths that the spec
leaves symbolic (name-slot width, timestamp width, entries per block, the
magic value and the key bytes) are fixed to small concrete constants, which
the spec permits: it treats them as format parameters to be pinned down.
-/

set_option maxRecDepth 100000

deriving instance DecidableEq for Except

namespace PK2

/-- Modelled from the spec: a Container is the full backing byte stream;
each element is one byte. -/
abbrev Container := List Nat

/-- Modelled from the spec: width of the fixed name slot in a record
(a format parameter; fixed here to 4 bytes). -/
def NAME_WIDTH : Nat := 4

/-- Modelled from the spec: width of each of the three timestamps
(a format parameter; fixed here to 2 bytes). -/
def TS_WIDTH : Nat := 2

/-- Modelled from the spec: record layout is
kind(1) | name(NAME_WIDTH) | 3 timestamps | position(8) | size(4) |
next_block_offset(8), all little-endian. -/
def RECORD_SIZE : Nat := 1 + NAME_WIDTH + 3 * TS_WIDTH + 8 + 4 + 8

/-- Modelled from the spec: fixed count of entries per block
(a format parameter; fixed here to 3). -/
def K_ENTRIES : Nat := 3

/-- Modelled from the spec: the format-identifying magic value at offset 0. -/
def MAGIC : List Nat := [80, 75, 50]

/-- Modelled from the spec: fixed Header size; the root block follows the
header immediately. -/
def HEADER_SIZE : Nat := 4

/-- Modelled from the spec: the single archive-wide fixed cipher key,
a process-wide immutable constant. -/
def KEY : List Nat := [145, 51, 107, 85]

/-- Modelled from the spec: the error taxonomy
OpenError {BadMagic, Truncated, IoError}; TraversalError {PathNotFound,
NotADirectory, NotAFile}; DecodeError {MalformedRecord, InvalidEncoding};
IoBounds. -/
inductive PkError where
  | badMagic
  | truncated
  | ioError
  | pathNotFound (segment : String)
  | notADirectory
  | notAFile
  | malformedRecord
  | invalidEncoding
  | ioBounds
deriving DecidableEq, Repr

/-- Modelled from the spec: entry kinds {Empty, Directory, File}. -/
inductive EntryKind where
  | empty
  | directory
  | file
deriving DecidableEq, Repr

/-- Modelled from the spec: one decoded record. -/
structure Entry where
  kind : EntryKind
  name : String
  created : Nat
  accessed : Nat
  modified : Nat
  position : Nat
  size : Nat
  next_block_offset : Nat
deriving DecidableEq, Repr

/-- Default entry used only as the fallback of list indexing. -/
def dummyEntry : Entry :=
  { kind := .empty, name := "", created := 0, accessed := 0, modified := 0
  , position := 0, size := 0, next_block_offset := 0 }

/-- Modelled from the spec: the deterministic keystream byte for
position i, derived from the fixed key. -/
def keystream (i : Nat) : Nat := KEY.getD (i % KEY.length) 0

/-- Modelled from the spec: transform each byte at position i with the
keystream byte at the same position (XOR stream cipher). -/
def decryptFrom (i : Nat) : List Nat → List Nat
  | [] => []
  | b :: rest => (b ^^^ keystream i) :: decryptFrom (i + 1) rest

/-- Modelled from the spec: pure name decryption,
`decrypt(name_bytes) -> name_bytes`, total and deterministic. -/
def decrypt (bs : List Nat) : List Nat := decryptFrom 0 bs

/-- Little-endian interpretation of a byte slice. -/
def leNat : List Nat → Nat
  | [] => 0
  | b :: rest => b + 256 * leNat rest

/-- Modelled from the spec: the kind byte maps 0/1/2 to
Empty/Directory/File and anything else is malformed. -/
def kindOfByte : Nat → Option EntryKind
  | 0 => some .empty
  | 1 => some .directory
  | 2 => some .file
  | _ => none

/-- Modelled from the spec, Record Codec: decode one fixed-size record.
Fails with MalformedRecord when the slice is short or the kind byte is
unmapped; decrypts the name slot, trims at the first null and fails with
InvalidEncoding when the trimmed bytes are not valid (ASCII) text. -/
def decodeRecord (raw : List Nat) : Except PkError Entry :=
  if raw.length < RECORD_SIZE then .error .malformedRecord
  else
    match kindOfByte (raw.getD 0 0) with
    | none => .error .malformedRecord
    | some k =>
      let trimmed := (decrypt ((raw.drop 1).take NAME_WIDTH)).takeWhile (fun b => b != 0)
      if trimmed.all (fun b => decide (b < 128)) then
        .ok { kind := k
            , name := String.mk (trimmed.map Char.ofNat)
            , created := leNat ((raw.drop (1 + NAME_WIDTH)).take TS_WIDTH)
            , accessed := leNat ((raw.drop (1 + NAME_WIDTH + TS_WIDTH)).take TS_WIDTH)
            , modified := leNat ((raw.drop (1 + NAME_WIDTH + 2 * TS_WIDTH)).take TS_WIDTH)
            , position := leNat ((raw.drop (1 + NAME_WIDTH + 3 * TS_WIDTH)).take 8)
            , size := leNat ((raw.drop (1 + NAME_WIDTH + 3 * TS_WIDTH + 8)).take 4)
            , next_block_offset := leNat ((raw.drop (1 + NAME_WIDTH + 3 * TS_WIDTH + 8 + 4)).take 8) }
      else .error .invalidEncoding

/-- Modelled from the spec: bounds-checked read of `len` bytes at `off`;
fails with IoBounds when the range exceeds the Container length. -/
def readBytes (c : Container) (off len : Nat) : Except PkError (List Nat) :=
  if off + len ≤ c.length then .ok ((c.drop off).take len) else .error .ioBounds

/-- The i-th fixed-size record slice of a block's raw bytes. -/
def chunk (bytes : List Nat) (i : Nat) : List Nat :=
  (bytes.drop (i * RECORD_SIZE)).take RECORD_SIZE

/-- Decode `n` consecutive records starting at record index `i`; the first
decode failure aborts the whole block (no record is silently dropped). -/
def decodeFrom (bytes : List Nat) : Nat → Nat → Except PkError (List Entry)
  | _, 0 => .ok []
  | i, n + 1 =>
    match decodeRecord (chunk bytes i) with
    | .error e => .error e
    | .ok ent =>
      match decodeFrom bytes (i + 1) n with
      | .error e => .error e
      | .ok rest => .ok (ent :: rest)

/-- Modelled from the spec, Block Store: read the K_ENTRIES records of the
block at `off`, decoding each via the Record Codec. -/
def read_block (c : Container) (off : Nat) : Except PkError (List Entry) :=
  match readBytes c off (K_ENTRIES * RECORD_SIZE) with
  | .error e => .error e
  | .ok bytes => decodeFrom bytes 0 K_ENTRIES

/-- Modelled from the spec: the continuation offset carried by a block's
final slot; 0 is the no-link sentinel. -/
def nextLink (blk : List Entry) : Option Nat :=
  match blk.getLast? with
  | none => none
  | some e => if e.next_block_offset = 0 then none else some e.next_block_offset

/-- Modelled from the spec: follow the continuation chain starting at `off`,
reading each block once; the trace pairs each block with the offset it was
read from, one pair per Block Store read.  `fuel` bounds the traversal so a
corrupt cyclic chain fails fast instead of looping. -/
def chainBlocks (c : Container) : Nat → Nat → Except PkError (List (Nat × List Entry))
  | 0, _ => .error .malformedRecord
  | fuel + 1, off =>
    match read_block c off with
    | .error e => .error e
    | .ok blk =>
      match nextLink blk with
      | none => .ok [(off, blk)]
      | some off2 =>
        match chainBlocks c fuel off2 with
        | .error e => .error e
        | .ok rest => .ok ((off, blk) :: rest)

/-- Modelled from the spec: skip the two reserved self/parent slots of the
first block only; continuation blocks have no reserved slots. -/
def skipReserved : List (List Entry) → List Entry
  | [] => []
  | b :: rest => b.drop 2 ++ rest.flatten

/-- An entry occupies a real slot when its kind is not Empty. -/
def isReal (e : Entry) : Bool := e.kind != .empty

/-- Modelled from the spec, Directory Tree: a directory's children are the
non-Empty entries of every block reachable through continuation links,
in on-disk order, minus the reserved slots of the first block. -/
def children_of (c : Container) (fuel off : Nat) : Except PkError (List Entry) :=
  match chainBlocks c fuel off with
  | .error e => .error e
  | .ok tr => .ok ((skipReserved (tr.map Prod.snd)).filter isReal)

/-- ASCII lower-casing of one character (the engine compares names
case-insensitively). -/
def lowerChar (ch : Char) : Char :=
  if 65 ≤ ch.toNat ∧ ch.toNat ≤ 90 then Char.ofNat (ch.toNat + 32) else ch

/-- ASCII lower-casing of a whole string. -/
def lowerStr (s : String) : String := String.mk (s.toList.map lowerChar)

/-- Case-insensitive name match of a child entry against a path segment. -/
def nameMatch (s : String) (e : Entry) : Bool := lowerStr e.name == lowerStr s

/-- Modelled from the spec: resolve a segment sequence against the
directory at `pos`: case-insensitive match against the children; descend on
a Directory match with segments remaining; return a final match regardless
of kind; PathNotFound names the first unresolved segment; a non-terminal
File match fails with NotADirectory. -/
def resolve (c : Container) (fuel : Nat) : List String → Nat → Except PkError Entry
  | [], _ => .error (.pathNotFound "")
  | s :: rest, pos =>
    match children_of c fuel pos with
    | .error e => .error e
    | .ok cs =>
      match cs.find? (nameMatch s) with
      | none => .error (.pathNotFound s)
      | some e =>
        match rest with
        | [] => .ok e
        | _ :: _ =>
          if e.kind = .directory then resolve c fuel rest e.position
          else .error .notADirectory

/-- Helper for `splitPath`: walk the characters accumulating the current
segment (reversed); a separator or the end emits the segment when it is
non-empty, so empty segments are ignored. -/
def splitAux : List Char → List Char → List String
  | [], acc => if acc.isEmpty then [] else [String.mk acc.reverse]
  | ch :: cs, acc =>
    if ch = '/' then
      (if acc.isEmpty then [] else [String.mk acc.reverse]) ++ splitAux cs []
    else splitAux cs (ch :: acc)

/-- Modelled from the spec: `/` separates segments; leading/trailing
separators and empty segments are ignored. -/
def splitPath (p : String) : List String := splitAux p.toList []

/-- An opened archive: the container plus the recorded root block offset. -/
structure Archive where
  container : Container
  rootOffset : Nat
deriving DecidableEq, Repr

/-- Traversal fuel: a well-formed (acyclic) chain in a container of length
L touches at most L blocks, so L+1 steps never cut a valid chain short. -/
def FUEL (c : Container) : Nat := c.length + 1

/-- Modelled from the spec, Extractor facade: validate the header magic and
record the root block offset; Truncated when the container is shorter than
the header, BadMagic when the signature mismatches. -/
def openArchive (c : Container) : Except PkError Archive :=
  if c.length < HEADER_SIZE then .error .truncated
  else if c.take MAGIC.length ≠ MAGIC then .error .badMagic
  else .ok { container := c, rootOffset := HEADER_SIZE }

/-- Modelled from the spec, Extractor facade: resolve the path to a
Directory entry (NotADirectory when it is a File) and return its direct
children; the empty path lists the root. -/
def listPath (a : Archive) (p : String) : Except PkError (List Entry) :=
  match splitPath p with
  | [] => children_of a.container (FUEL a.container) a.rootOffset
  | s :: rest =>
    match resolve a.container (FUEL a.container) (s :: rest) a.rootOffset with
    | .error e => .error e
    | .ok e =>
      if e.kind = .directory then children_of a.container (FUEL a.container) e.position
      else .error .notADirectory

/-- Modelled from the spec, Extractor facade: resolve the path to a File
entry (NotAFile otherwise) and read exactly `size` bytes at `position`;
IoBounds when that range exceeds the container. -/
def extract (a : Archive) (p : String) : Except PkError (Entry × List Nat) :=
  match splitPath p with
  | [] => .error .notAFile
  | s :: rest =>
    match resolve a.container (FUEL a.container) (s :: rest) a.rootOffset with
    | .error e => .error e
    | .ok e =>
      if e.kind = .file then
        match readBytes a.container e.position e.size with
        | .error err => .error err
        | .ok bs => .ok (e, bs)
      else .error .notAFile

/-- Modelled from the spec: numeric code of an entry kind as surfaced to
the Python caller (`entry_type`); 2 denotes a File. -/
def kindCode : EntryKind → Nat
  | .empty => 0
  | .directory => 1
  | .file => 2

/-- Modelled from the spec: the entry descriptor surfaced at the Python
interface, with a string `name` and an integer `entry_type`. -/
structure PyEntry where
  name : String
  entry_type : Nat
  size : Nat
deriving DecidableEq, Repr

/-- Descriptor conversion for the Python facade. -/
def pyOfEntry (e : Entry) : PyEntry :=
  { name := e.name, entry_type := kindCode e.kind, size := e.size }

/-- Modelled from the spec: `Extractor.list` at the Python interface. -/
def pyList (a : Archive) (p : String) : Except PkError (List PyEntry) :=
  match listPath a p with
  | .error e => .error e
  | .ok es => .ok (es.map pyOfEntry)

/-- Modelled from the spec: `Extractor.extract` at the Python interface;
the result is a pair whose component at index 1 is the raw content. -/
def pyExtract (a : Archive) (p : String) : Except PkError (PyEntry × List Nat) :=
  match extract a p with
  | .error e => .error e
  | .ok pr => .ok (pyOfEntry pr.1, pr.2)

/-- The on-disk continuation chain starting at a directory's position:
each pair records an offset, the block stored there, and consecutive
blocks are linked by the final slot's next_block_offset; the last block
carries the no-link sentinel. -/
inductive Chain (c : Container) : Nat → List (Nat × List Entry) → Prop where
  | last (off : Nat) (blk : List Entry) :
      read_block c off = .ok blk → nextLink blk = none →
      Chain c off [(off, blk)]
  | cons (off off2 : Nat) (blk : List Entry) (tl : List (Nat × List Entry)) :
      read_block c off = .ok blk → nextLink blk = some off2 → Chain c off2 tl →
      Chain c off ((off, blk) :: tl)

/-! ### Concrete test fixtures -/

/-- Little-endian encoding of `n` into `w` bytes (fixture building). -/
def natToLe : Nat → Nat → List Nat
  | 0, _ => []
  | w + 1, n => (n % 256) :: natToLe w (n / 256)

/-- Fixture building: the on-disk (enciphered) form of a name; XOR with the
keystream is its own inverse, so the encoder reuses `decrypt`. -/
def encName (nm : String) : List Nat :=
  decrypt ((nm.toList.map Char.toNat ++ List.replicate NAME_WIDTH 0).take NAME_WIDTH)

/-- Fixture building: one raw record. -/
def mkRecord (k : Nat) (nm : String) (pos sz nxt : Nat) : List Nat :=
  [k] ++ encName nm ++ natToLe TS_WIDTH 0 ++ natToLe TS_WIDTH 0 ++ natToLe TS_WIDTH 0
      ++ natToLe 8 pos ++ natToLe 4 sz ++ natToLe 8 nxt

/-- Fixture building: a decoded entry with zero timestamps. -/
def mkEntry (k : EntryKind) (nm : String) (pos sz nxt : Nat) : Entry :=
  { kind := k, name := nm, created := 0, accessed := 0, modified := 0
  , position := pos, size := sz, next_block_offset := nxt }

/-- A concrete well-formed archive: root directory holding one directory
`d` whose three children span two chained blocks; file contents at the
tail.  Layout: header 0..3, root block 4..96, first `d` block 97..189,
continuation block 190..282, data 283..288. -/
def ARC : Container :=
  MAGIC ++ [0]
  ++ mkRecord 1 "." 4 0 0 ++ mkRecord 1 ".." 4 0 0 ++ mkRecord 1 "d" 97 0 0
  ++ mkRecord 1 "." 97 0 0 ++ mkRecord 1 ".." 4 0 0 ++ mkRecord 2 "a" 283 3 190
  ++ mkRecord 2 "b" 286 2 0 ++ mkRecord 0 "" 0 0 0 ++ mkRecord 2 "C" 288 1 0
  ++ [120, 121, 122, 117, 118, 119]

/-- Decoded root block of `ARC`. -/
def rootBlk : List Entry :=
  [mkEntry .directory "." 4 0 0, mkEntry .directory ".." 4 0 0, mkEntry .directory "d" 97 0 0]

/-- Decoded first block of directory `d` in `ARC`. -/
def d1Blk : List Entry :=
  [mkEntry .directory "." 97 0 0, mkEntry .directory ".." 4 0 0, mkEntry .file "a" 283 3 190]

/-- Decoded continuation block of directory `d` in `ARC`. -/
def d2Blk : List Entry :=
  [mkEntry .file "b" 286 2 0, mkEntry .empty "" 0 0 0, mkEntry .file "C" 288 1 0]

/-- A corrupt archive whose single file claims 9 bytes at offset 97, past
the 97-byte container end. -/
def BADARC : Container :=
  MAGIC ++ [0]
  ++ mkRecord 1 "." 4 0 0 ++ mkRecord 1 ".." 4 0 0 ++ mkRecord 2 "f" 97 9 0

/-- An archive whose root block's second record carries the unmapped kind
byte 9, so decoding the root block must fail. -/
def BADREC : Container :=
  MAGIC ++ [0]
  ++ mkRecord 1 "." 4 0 0 ++ (9 :: List.replicate (RECORD_SIZE - 1) 0) ++ mkRecord 1 "d" 97 0 0

/-! ### Helper lemmas -/

/-- A chain whose length fits in the fuel is exactly what `chainBlocks`
returns: one trace element per Block Store read. -/
lemma chainBlocks_of_chain {c : Container} {off : Nat}
    {tr : List (Nat × List Entry)} (h : Chain c off tr) :
    ∀ fuel, tr.length ≤ fuel → chainBlocks c fuel off = .ok tr := by
  induction h with
  | last off blk h1 h2 =>
    intro fuel hf
    cases fuel with
    | zero => simp at hf
    | succ f => simp [chainBlocks, h1, h2]
  | cons off off2 blk tl h1 h2 h3 ih =>
    intro fuel hf
    cases fuel with
    | zero => simp at hf
    | succ f =>
      have htl : tl.length ≤ f := by simpa using hf
      simp [chainBlocks, h1, h2, ih f htl]

/-- Every trace element of a chain is a successful Block Store read. -/
lemma chain_reads {c : Container} {off : Nat}
    {tr : List (Nat × List Entry)} (h : Chain c off tr) :
    ∀ pr ∈ tr, read_block c pr.1 = .ok pr.2 := by
  induction h with
  | last off blk h1 h2 => intro pr hpr; simp at hpr; subst hpr; exact h1
  | cons off off2 blk tl h1 h2 h3 ih =>
    intro pr hpr
    rcases List.mem_cons.mp hpr with h | h
    · subst h; exact h1
    · exact ih pr h

/-- The final block of a chain carries the no-link sentinel. -/
lemma chain_last_sentinel {c : Container} {off : Nat}
    {tr : List (Nat × List Entry)} (h : Chain c off tr) :
    tr.getLast?.map (fun pr => nextLink pr.2) = some none := by
  induction h with
  | last off blk h1 h2 => simp [h2]
  | cons off off2 blk tl h1 h2 h3 ih =>
    cases tl with
    | nil => simp at ih
    | cons hd tl2 => simpa [List.getLast?_cons_cons] using ih

/-- `children_of` on a chain: skip the first block's reserved slots,
concatenate, and drop Empty slots. -/
lemma children_of_of_chain {c : Container} {off : Nat}
    {tr : List (Nat × List Entry)} (h : Chain c off tr) :
    ∀ fuel, tr.length ≤ fuel →
      children_of c fuel off = .ok ((skipReserved (tr.map Prod.snd)).filter isReal) := by
  intro fuel hf
  simp [children_of, chainBlocks_of_chain h fuel hf]

/-- A successful `decodeFrom` decoded every record, in order: the output
has one entry per record and the j-th output is the decode of the j-th
record slice. -/
lemma decodeFrom_ok {bytes : List Nat} :
    ∀ n i l, decodeFrom bytes i n = .ok l →
      l.length = n ∧ ∀ j, j < n → decodeRecord (chunk bytes (i + j)) = .ok (l.getD j dummyEntry) := by
  intro n
  induction n with
  | zero =>
    intro i l h
    simp [decodeFrom] at h
    subst h
    exact ⟨rfl, by omega⟩
  | succ m ih =>
    intro i l h
    unfold decodeFrom at h
    cases hd : decodeRecord (chunk bytes i) with
    | error e => rw [hd] at h; exact absurd h (by simp)
    | ok ent =>
      rw [hd] at h
      cases hr : decodeFrom bytes (i + 1) m with
      | error e => rw [hr] at h; exact absurd h (by simp)
      | ok rest =>
        rw [hr] at h
        simp at h
        subst h
        obtain ⟨hlen, hnth⟩ := ih (i + 1) rest hr
        refine ⟨by simp [hlen], ?_⟩
        intro j hj
        cases j with
        | zero => simpa using hd
        | succ j2 =>
          have := hnth j2 (by omega)
          have harg : i + 1 + j2 = i + (j2 + 1) := by omega
          rw [harg] at this
          simpa using this

/-- The first record that fails to decode makes the whole `decodeFrom`
fail with that record's error: a malformed record is never dropped. -/
lemma decodeFrom_err {bytes : List Nat} :
    ∀ n i j err, j < n →
      (∀ j2, j2 < j → ∃ e2, decodeRecord (chunk bytes (i + j2)) = .ok e2) →
      decodeRecord (chunk bytes (i + j)) = .error err →
      decodeFrom bytes i n = .error err := by
  intro n
  induction n with
  | zero => intro i j err hj; omega
  | succ m ih =>
    intro i j err hj hprev hbad
    cases j with
    | zero =>
      unfold decodeFrom
      rw [show i + 0 = i from rfl] at hbad
      rw [hbad]
    | succ j2 =>
      obtain ⟨e0, he0⟩ := hprev 0 (by omega)
      rw [show i + 0 = i from rfl] at he0
      unfold decodeFrom
      rw [he0]
      have hrec : decodeFrom bytes (i + 1) m = .error err := by
        refine ih (i + 1) j2 err (by omega) ?_ ?_
        · intro j3 hj3
          have := hprev (j3 + 1) (by omega)
          rwa [show i + (j3 + 1) = i + 1 + j3 from by omega] at this
        · rwa [show i + (j2 + 1) = i + 1 + j2 from by omega] at hbad
      rw [hrec]

/-- `resolve` propagates a children enumeration failure unchanged. -/
lemma resolve_children_err {c : Container} {f pos : Nat} {err : PkError}
    (s : String) (rest : List String) (hc : children_of c f pos = .error err) :
    resolve c f (s :: rest) pos = .error err := by
  conv_lhs => unfold resolve
  rw [hc]

/-- One resolution step once the current directory's children are known. -/
lemma resolve_step {c : Container} {f pos : Nat} {cs : List Entry}
    (s : String) (rest : List String) (hc : children_of c f pos = .ok cs) :
    resolve c f (s :: rest) pos =
      match cs.find? (nameMatch s) with
      | none => .error (.pathNotFound s)
      | some e =>
        match rest with
        | [] => .ok e
        | _ :: _ =>
          if e.kind = .directory then resolve c f rest e.position
          else .error .notADirectory := by
  conv_lhs => unfold resolve
  rw [hc]

/-- Appending one more segment to a successfully resolved directory path
continues resolution from that directory's position. -/
lemma resolve_append {c : Container} {f : Nat} :
    ∀ (rest : List String) (s0 : String) (pos : Nat) (d : Entry) (snew : String),
      resolve c f (s0 :: rest) pos = .ok d → d.kind = .directory →
      resolve c f ((s0 :: rest) ++ [snew]) pos = resolve c f [snew] d.position := by
  intro rest
  induction rest with
  | nil =>
    intro s0 pos d snew h hdir
    cases hc : children_of c f pos with
    | error e => rw [resolve_children_err s0 [] hc] at h; exact absurd h (by simp)
    | ok cs =>
      rw [resolve_step s0 [] hc] at h
      cases hf : cs.find? (nameMatch s0) with
      | none => rw [hf] at h; exact absurd h (by simp)
      | some e =>
        rw [hf] at h
        simp at h
        subst h
        simp only [List.cons_append, List.nil_append]
        simp [resolve_step s0 [snew] hc, hf, hdir]
  | cons r rs ih =>
    intro s0 pos d snew h hdir
    cases hc : children_of c f pos with
    | error e =>
      rw [resolve_children_err s0 (r :: rs) hc] at h; exact absurd h (by simp)
    | ok cs =>
      rw [resolve_step s0 (r :: rs) hc] at h
      cases hf : cs.find? (nameMatch s0) with
      | none => rw [hf] at h; exact absurd h (by simp)
      | some e =>
        rw [hf] at h
        simp at h
        by_cases he : e.kind = .directory
        · rw [if_pos he] at h
          simp only [List.cons_append]
          rw [resolve_step s0 (r :: (rs ++ [snew])) hc]
          simp [hf, he]
          have := ih r e.position d snew h hdir
          simpa only [List.cons_append] using this
        · rw [if_neg he] at h
          exact absurd h (by simp)

/-- `decryptFrom` preserves length: decryption is total, one output byte
per input byte. -/
lemma decryptFrom_length : ∀ (bs : List Nat) (i : Nat), (decryptFrom i bs).length = bs.length := by
  intro bs
  induction bs with
  | nil => intro i; rfl
  | cons b rest ih => intro i; simp [decryptFrom, ih (i + 1)]

/-- Re-applying the keystream undoes it: XOR decryption is an involution. -/
lemma decryptFrom_invol : ∀ (bs : List Nat) (i : Nat), decryptFrom i (decryptFrom i bs) = bs := by
  intro bs
  induction bs with
  | nil => intro i; rfl
  | cons b rest ih => intro i; simp [decryptFrom, ih (i + 1), Nat.xor_cancel_right]

/-- Case-insensitive resolution: segment sequences equal after ASCII
lower-casing resolve to the same entry. -/
lemma resolve_case_insensitive_aux {c : Container} {f : Nat} :
    ∀ (segs1 segs2 : List String) (pos : Nat),
      segs1.map lowerStr = segs2.map lowerStr →
      ∀ e, (resolve c f segs1 pos = .ok e ↔ resolve c f segs2 pos = .ok e) := by
  intro segs1
  induction segs1 with
  | nil =>
    intro segs2 pos h e
    have : segs2 = [] := by simpa using h.symm
    subst this
    exact Iff.rfl
  | cons s1 r1 ih =>
    intro segs2 pos h e
    cases segs2 with
    | nil => simp at h
    | cons s2 r2 =>
      simp at h
      obtain ⟨hs, hr⟩ := h
      have hm : nameMatch s1 = nameMatch s2 := by
        funext x
        unfold nameMatch
        rw [hs]
      cases hc : children_of c f pos with
      | error err =>
        rw [resolve_children_err s1 r1 hc, resolve_children_err s2 r2 hc]
      | ok cs =>
        rw [resolve_step s1 r1 hc, resolve_step s2 r2 hc, hm]
        cases hf : cs.find? (nameMatch s2) with
        | none => simp
        | some e2 =>
          cases r1 with
          | nil =>
            cases r2 with
            | nil => exact Iff.rfl
            | cons b bs => simp at hr
          | cons a as =>
            cases r2 with
            | nil => simp at hr
            | cons b bs =>
              by_cases hd : e2.kind = .directory
              · simp only [hd]
                simp only [reduceIte]
                exact ih (b :: bs) e2.position hr e
              · simp [hd]

/-! ### Claim theorems -/

/-- C1: for every opened archive and every path that resolves to a File
entry whose byte range lies inside the Container, `extract` returns exactly
the `entry.size` bytes starting at `entry.position`; in particular the
returned content's length equals the entry's `size` field. -/
theorem claim1_extract_reads_entry_size (a : Archive) (p s : String)
    (rest : List String) (e : Entry)
    (hsplit : splitPath p = s :: rest)
    (hres : resolve a.container (FUEL a.container) (s :: rest) a.rootOffset = .ok e)
    (hfile : e.kind = .file)
    (hbounds : e.position + e.size ≤ a.container.length) :
    extract a p = .ok (e, (a.container.drop e.position).take e.size)
    ∧ ((a.container.drop e.position).take e.size).length = e.size := by
  constructor
  · simp [extract, hsplit, hres, hfile, readBytes, hbounds]
  · simp only [List.length_take, List.length_drop]
    omega

/-- Witness for C1 in the concrete archive `ARC`: extracting `d/a` yields
the three bytes stored for file `a`, matching its size field. -/
theorem claim1_witness :
    extract ⟨ARC, 4⟩ "d/a" = .ok (mkEntry .file "a" 283 3 190, [120, 121, 122]) := by
  have h := claim1_extract_reads_entry_size ⟨ARC, 4⟩ "d/a" "d" ["a"]
    (mkEntry .file "a" 283 3 190) (by decide) (by decide) (by decide) (by decide)
  exact h.1.trans (by decide)

/-- C2: for a directory whose children span several blocks, one
`children_of` call returns the non-Empty entries of every block reachable
through continuation links, in on-disk order; `chainBlocks` performs one
Block Store read per trace element (one per block touched), and the
traversal stops at the final slot's sentinel link. -/
theorem claim2_children_concatenate_chain (c : Container) (off : Nat)
    (tr : List (Nat × List Entry)) (fuel : Nat)
    (hch : Chain c off tr) (hfuel : tr.length ≤ fuel) :
    chainBlocks c fuel off = .ok tr
    ∧ children_of c fuel off = .ok ((skipReserved (tr.map Prod.snd)).filter isReal)
    ∧ (∀ pr ∈ tr, read_block c pr.1 = .ok pr.2)
    ∧ tr.getLast?.map (fun pr => nextLink pr.2) = some none :=
  ⟨chainBlocks_of_chain hch fuel hfuel, children_of_of_chain hch fuel hfuel,
   chain_reads hch, chain_last_sentinel hch⟩

/-- Witness for C2: in `ARC`, directory `d` spans two chained blocks and a
single enumeration yields the three non-Empty entries of both blocks in
on-disk order. -/
theorem claim2_witness :
    children_of ARC 2 97 =
      .ok [mkEntry .file "a" 283 3 190, mkEntry .file "b" 286 2 0,
           mkEntry .file "C" 288 1 0] := by
  have h := claim2_children_concatenate_chain ARC 97 [(97, d1Blk), (190, d2Blk)] 2
    (Chain.cons 97 190 d1Blk [(190, d2Blk)] (by decide) (by decide)
      (Chain.last 190 d2Blk (by decide) (by decide))) (by decide)
  exact h.2.1.trans (by decide)

/-- C3: `resolve` fails with PathNotFound naming the first segment with no
child match, fails with NotADirectory when a non-terminal segment matches a
File, and returns a final-segment match regardless of its kind. -/
theorem claim3_resolve_errors (c : Container) (f pos : Nat) (s : String)
    (rest : List String) (cs : List Entry)
    (hc : children_of c f pos = .ok cs) :
    (cs.find? (nameMatch s) = none →
      resolve c f (s :: rest) pos = .error (.pathNotFound s))
    ∧ (∀ e, cs.find? (nameMatch s) = some e → rest ≠ [] → e.kind = .file →
      resolve c f (s :: rest) pos = .error .notADirectory)
    ∧ (∀ e, cs.find? (nameMatch s) = some e → rest = [] →
      resolve c f (s :: rest) pos = .ok e) := by
  refine ⟨?_, ?_, ?_⟩
  · intro hf
    rw [resolve_step s rest hc, hf]
  · intro e hf hrest hfile
    rw [resolve_step s rest hc, hf]
    cases rest with
    | nil => exact absurd rfl hrest
    | cons r rs => simp [hfile]
  · intro e hf hrest
    subst hrest
    rw [resolve_step s [] hc, hf]

/-- Witness for C3 in `ARC`: a missing first segment gives PathNotFound
naming it, a file used as intermediate segment gives NotADirectory, and a
terminal file match is returned. -/
theorem claim3_witness :
    resolve ARC (FUEL ARC) ["q"] 4 = .error (.pathNotFound "q")
    ∧ resolve ARC (FUEL ARC) ["a", "x"] 97 = .error .notADirectory
    ∧ resolve ARC (FUEL ARC) ["a"] 97 = .ok (mkEntry .file "a" 283 3 190) := by
  refine ⟨?_, ?_, ?_⟩
  · exact (claim3_resolve_errors ARC (FUEL ARC) 4 "q" []
      [mkEntry .directory "d" 97 0 0] (by decide)).1 (by decide)
  · exact (claim3_resolve_errors ARC (FUEL ARC) 97 "a" ["x"]
      [mkEntry .file "a" 283 3 190, mkEntry .file "b" 286 2 0,
       mkEntry .file "C" 288 1 0] (by decide)).2.1
      (mkEntry .file "a" 283 3 190) (by decide) (by decide) (by decide)
  · exact (claim3_resolve_errors ARC (FUEL ARC) 97 "a" []
      [mkEntry .file "a" 283 3 190, mkEntry .file "b" 286 2 0,
       mkEntry .file "C" 288 1 0] (by decide)).2.2
      (mkEntry .file "a" 283 3 190) (by decide) rfl

/-- C4: `openArchive` fails with Truncated exactly when the container is
shorter than the header; on a full-size header it fails with BadMagic
exactly when the signature mismatches; on success it returns the archive
with the root block offset recorded. -/
theorem claim4_open_checks (c : Container) :
    (openArchive c = .error .truncated ↔ c.length < HEADER_SIZE)
    ∧ (HEADER_SIZE ≤ c.length →
        (openArchive c = .error .badMagic ↔ c.take MAGIC.length ≠ MAGIC))
    ∧ (∀ a, openArchive c = .ok a →
        a.container = c ∧ a.rootOffset = HEADER_SIZE) := by
  unfold openArchive
  refine ⟨?_, ?_, ?_⟩
  · constructor
    · intro h
      by_contra hlen
      rw [if_neg hlen] at h
      by_cases hm : c.take MAGIC.length ≠ MAGIC
      · rw [if_pos hm] at h; exact absurd h (by simp)
      · rw [if_neg hm] at h; exact absurd h (by simp)
    · intro h; rw [if_pos h]
  · intro hlen
    rw [if_neg (by omega)]
    constructor
    · intro h
      by_cases hm : c.take MAGIC.length ≠ MAGIC
      · exact hm
      · rw [if_neg hm] at h; exact absurd h (by simp)
    · intro hm; rw [if_pos hm]
  · intro a h
    by_cases hlen : c.length < HEADER_SIZE
    · rw [if_pos hlen] at h; exact absurd h (by simp)
    · rw [if_neg hlen] at h
      by_cases hm : c.take MAGIC.length ≠ MAGIC
      · rw [if_pos hm] at h; exact absurd h (by simp)
      · rw [if_neg hm] at h
        simp at h
        rw [← h]
        exact ⟨rfl, rfl⟩

/-- Witness for C4: a 2-byte container is Truncated, a 4-byte container
with the wrong signature is BadMagic, and opening `ARC` records the root
offset `HEADER_SIZE`. -/
theorem claim4_witness :
    openArchive [80, 75] = .error .truncated
    ∧ openArchive [9, 9, 9, 9] = .error .badMagic
    ∧ ((⟨ARC, 4⟩ : Archive).container = ARC
        ∧ (⟨ARC, 4⟩ : Archive).rootOffset = HEADER_SIZE) := by
  refine ⟨?_, ?_, ?_⟩
  · exact (claim4_open_checks [80, 75]).1.mpr (by decide)
  · exact ((claim4_open_checks [9, 9, 9, 9]).2.1 (by decide)).mpr (by decide)
  · exact (claim4_open_checks ARC).2.2 ⟨ARC, 4⟩ (by decide)

/-- C5: on a valid archive, root enumeration yields no Empty entry and
draws only from the non-reserved slots (the first block's first two slots
are skipped, continuation blocks have none), so no listed name is the
reserved `.` or `..` marker. -/
theorem claim5_list_root_skips_reserved (c : Container) (a : Archive)
    (tr : List (Nat × List Entry))
    (_hopen : openArchive c = .ok a)
    (hch : Chain a.container a.rootOffset tr)
    (hfuel : tr.length ≤ FUEL a.container)
    (hnames : ∀ e ∈ skipReserved (tr.map Prod.snd), e.name ≠ "." ∧ e.name ≠ "..") :
    ∃ es, listPath a "" = .ok es
      ∧ es = (skipReserved (tr.map Prod.snd)).filter isReal
      ∧ ∀ e ∈ es, e.kind ≠ .empty ∧ e.name ≠ "." ∧ e.name ≠ ".." := by
  refine ⟨(skipReserved (tr.map Prod.snd)).filter isReal, ?_, rfl, ?_⟩
  · have hsplit : splitPath "" = [] := rfl
    unfold listPath
    rw [hsplit]
    exact children_of_of_chain hch _ hfuel
  · intro e he
    have hmem := List.mem_filter.mp he
    have hkind : e.kind ≠ .empty := by simpa [isReal, bne_iff_ne] using hmem.2
    exact ⟨hkind, (hnames e hmem.1).1, (hnames e hmem.1).2⟩

/-- Witness for C5: opening `ARC` and listing the root skips the reserved
`.`/`..` slots and the Empty slots. -/
theorem claim5_witness :
    ∃ es, listPath ⟨ARC, 4⟩ "" = .ok es
      ∧ es = (skipReserved ([(4, rootBlk)].map Prod.snd)).filter isReal
      ∧ ∀ e ∈ es, e.kind ≠ .empty ∧ e.name ≠ "." ∧ e.name ≠ ".." :=
  claim5_list_root_skips_reserved ARC ⟨ARC, 4⟩ [(4, rootBlk)] (by decide)
    (Chain.last 4 rootBlk (by decide) (by decide)) (by decide) (by decide)

/-- C6: path resolution is case-insensitive and separator-normalizing:
paths whose segment sequences agree after lower-casing (separators and
empty segments already ignored by `splitPath`) resolve to the same entry. -/
theorem claim6_case_and_separator_insensitive (a : Archive) (p q : String) (e : Entry)
    (h : (splitPath p).map lowerStr = (splitPath q).map lowerStr) :
    resolve a.container (FUEL a.container) (splitPath p) a.rootOffset = .ok e
    ↔ resolve a.container (FUEL a.container) (splitPath q) a.rootOffset = .ok e :=
  resolve_case_insensitive_aux (splitPath p) (splitPath q) a.rootOffset h e

/-- Witness for C6: `D/A` and `d//a/` resolve to the same file entry of
`ARC`. -/
theorem claim6_witness :
    resolve ARC (FUEL ARC) (splitPath "D/A") 4 = .ok (mkEntry .file "a" 283 3 190)
    ∧ resolve ARC (FUEL ARC) (splitPath "d//a/") 4 = .ok (mkEntry .file "a" 283 3 190) :=
  ⟨(claim6_case_and_separator_insensitive ⟨ARC, 4⟩ "D/A" "d//a/"
      (mkEntry .file "a" 283 3 190) (by decide)).mpr (by decide),
   by decide⟩

/-- C7: name decryption is a pure total function of the input bytes and
the fixed key: it yields one output byte per input byte (never fails),
equal inputs give byte-identical outputs across calls, and re-applying the
keystream restores the input. -/
theorem claim7_decrypt_pure (bs : List Nat) :
    (decrypt bs).length = bs.length
    ∧ (∀ bs2, bs2 = bs → decrypt bs2 = decrypt bs)
    ∧ decrypt (decrypt bs) = bs :=
  ⟨decryptFrom_length bs 0, fun _ h => by rw [h], decryptFrom_invol bs 0⟩

/-- Witness for C7 on concrete bytes. -/
theorem claim7_witness :
    (decrypt [7, 200, 33]).length = 3
    ∧ decrypt (decrypt [7, 200, 33]) = [7, 200, 33] := by
  have h := claim7_decrypt_pure [7, 200, 33]
  exact ⟨h.1.trans (by decide), h.2.2⟩

/-- C8: every Container read is bounds-checked: `readBytes` fails with
IoBounds exactly when the range exceeds the Container, a successful read
stays inside the Container (no read past the end) and returns exactly the
requested length, `read_block` fails with IoBounds when the K-record range
overflows, and `extract` fails with IoBounds when `position + size`
exceeds the Container length. -/
theorem claim8_bounds_checked (c : Container) (off len : Nat) :
    (readBytes c off len = .error .ioBounds ↔ c.length < off + len)
    ∧ (∀ bs, readBytes c off len = .ok bs →
        off + bs.length ≤ c.length ∧ bs.length = len)
    ∧ (c.length < off + K_ENTRIES * RECORD_SIZE →
        read_block c off = .error .ioBounds)
    ∧ (∀ (a : Archive) (p s : String) (rest : List String) (e : Entry),
        splitPath p = s :: rest →
        resolve a.container (FUEL a.container) (s :: rest) a.rootOffset = .ok e →
        e.kind = .file →
        a.container.length < e.position + e.size →
        extract a p = .error .ioBounds) := by
  refine ⟨?_, ?_, ?_, ?_⟩
  · unfold readBytes
    by_cases h : off + len ≤ c.length
    · rw [if_pos h]
      constructor
      · intro hcon; exact absurd hcon (by simp)
      · intro hlt; omega
    · rw [if_neg h]
      constructor
      · intro _; omega
      · intro _; rfl
  · intro bs h
    unfold readBytes at h
    by_cases hle : off + len ≤ c.length
    · rw [if_pos hle] at h
      simp at h
      subst h
      constructor
      · simp only [List.length_take, List.length_drop]
        omega
      · simp only [List.length_take, List.length_drop]
        omega
    · rw [if_neg hle] at h
      exact absurd h (by simp)
  · intro h
    unfold read_block readBytes
    rw [if_neg (by omega)]
  · intro a p s rest e hsplit hres hfile hb
    have hn : ¬ (e.position + e.size ≤ a.container.length) := by omega
    simp [extract, hsplit, hres, hfile, readBytes, hn]

/-- Witness for C8: an off-the-end byte read and an off-the-end block read
on `ARC` both fail with IoBounds, and extracting the lying file of
`BADARC` (size past the container end) fails with IoBounds. -/
theorem claim8_witness :
    readBytes ARC 289 1 = .error .ioBounds
    ∧ read_block ARC 285 = .error .ioBounds
    ∧ extract ⟨BADARC, 4⟩ "f" = .error .ioBounds := by
  refine ⟨?_, ?_, ?_⟩
  · exact (claim8_bounds_checked ARC 289 1).1.mpr (by decide)
  · exact (claim8_bounds_checked ARC 285 0).2.2.1 (by decide)
  · exact (claim8_bounds_checked BADARC 0 0).2.2.2 ⟨BADARC, 4⟩ "f" "f" []
      (mkEntry .file "f" 97 9 0) (by decide) (by decide) (by decide) (by decide)

/-- C9: no malformed record is silently dropped: a successful block read
decoded every one of its K records in order; the first record that fails
to decode fails the whole block read with that DecodeError, which the
directory enumeration propagates; and the codec fails with MalformedRecord
on a short slice or an unmapped kind byte and with InvalidEncoding on
non-text name bytes. -/
theorem claim9_no_silent_drop (c : Container) (off : Nat) (bytes : List Nat)
    (hb : readBytes c off (K_ENTRIES * RECORD_SIZE) = .ok bytes) :
    (∀ l, read_block c off = .ok l →
      l.length = K_ENTRIES ∧ ∀ j, j < K_ENTRIES →
        decodeRecord (chunk bytes j) = .ok (l.getD j dummyEntry))
    ∧ (∀ j err, j < K_ENTRIES →
        (∀ j2, j2 < j → ∃ e2, decodeRecord (chunk bytes j2) = .ok e2) →
        decodeRecord (chunk bytes j) = .error err →
        read_block c off = .error err)
    ∧ (∀ err fuel, read_block c off = .error err →
        children_of c (fuel + 1) off = .error err)
    ∧ (∀ raw : List Nat, raw.length < RECORD_SIZE →
        decodeRecord raw = .error .malformedRecord)
    ∧ (∀ raw : List Nat, RECORD_SIZE ≤ raw.length →
        kindOfByte (raw.getD 0 0) = none →
        decodeRecord raw = .error .malformedRecord)
    ∧ (∀ raw : List Nat, RECORD_SIZE ≤ raw.length → ∀ k,
        kindOfByte (raw.getD 0 0) = some k →
        ((decrypt ((raw.drop 1).take NAME_WIDTH)).takeWhile (fun b => b != 0)).all
          (fun b => decide (b < 128)) = false →
        decodeRecord raw = .error .invalidEncoding) := by
  have hrb : read_block c off = decodeFrom bytes 0 K_ENTRIES := by
    unfold read_block
    rw [hb]
  refine ⟨?_, ?_, ?_, ?_, ?_, ?_⟩
  · intro l h
    rw [hrb] at h
    obtain ⟨hlen, hnth⟩ := decodeFrom_ok K_ENTRIES 0 l h
    refine ⟨hlen, ?_⟩
    intro j hj
    simpa using hnth j hj
  · intro j err hj hprev hbad
    rw [hrb]
    refine decodeFrom_err K_ENTRIES 0 j err hj ?_ ?_
    · intro j2 hj2
      simpa using hprev j2 hj2
    · simpa using hbad
  · intro err fuel h
    have hcb : chainBlocks c (fuel + 1) off = .error err := by
      unfold chainBlocks
      rw [h]
    unfold children_of
    rw [hcb]
  · intro raw hlt
    unfold decodeRecord
    rw [if_pos hlt]
  · intro raw hge hk
    unfold decodeRecord
    rw [if_neg (by omega), hk]
  · intro raw hge k hk hbadname
    unfold decodeRecord
    rw [if_neg (by omega), hk]
    simp only [hbadname]
    rfl

/-- Witness for C9: the block of `BADREC` holding an unmapped kind byte 9
in its second record fails as a whole with MalformedRecord, and a 2-byte
slice is MalformedRecord. -/
theorem claim9_witness :
    read_block BADREC 4 = .error .malformedRecord
    ∧ decodeRecord [1, 2] = .error .malformedRecord := by
  have h := claim9_no_silent_drop BADREC 4
    ((BADREC.drop 4).take (K_ENTRIES * RECORD_SIZE)) (by decide)
  constructor
  · refine h.2.1 1 .malformedRecord (by decide) ?_ (by decide)
    intro j2 hj2
    have hz : j2 = 0 := by omega
    subst hz
    exact ⟨mkEntry .directory "." 4 0 0, by decide⟩
  · exact h.2.2.2.1 [1, 2] (by decide)

/-- C10: at the Python interface, listed entries expose `name` and
`entry_type` with 2 denoting a File, and a File entry listed under `p`
round-trips: extracting `p ++ "/" ++ name` succeeds with a pair whose
second component is the file's byte content of length `size` (hypotheses:
the entry is the first case-insensitive match of its own name among its
siblings, its name adds exactly one path segment, and its range is in
bounds — the well-formedness the real archive provides). -/
theorem claim10_py_roundtrip (a : Archive) (p : String) (es : List Entry) (e : Entry)
    (hlist : listPath a p = .ok es)
    (hmem : e ∈ es)
    (hfind : es.find? (nameMatch e.name) = some e)
    (hsplit : splitPath (p ++ "/" ++ e.name) = splitPath p ++ [e.name])
    (hbounds : e.position + e.size ≤ a.container.length) :
    (∀ k, kindCode k = 2 ↔ k = .file)
    ∧ pyList a p = .ok (es.map pyOfEntry)
    ∧ pyOfEntry e ∈ es.map pyOfEntry
    ∧ ((pyOfEntry e).entry_type = 2 →
        pyExtract a (p ++ "/" ++ e.name) =
          .ok (pyOfEntry e, (a.container.drop e.position).take e.size)
        ∧ ((a.container.drop e.position).take e.size).length = e.size) := by
  have hkind_iff : ∀ k, kindCode k = 2 ↔ k = .file := by
    intro k
    cases k <;> simp [kindCode]
  refine ⟨hkind_iff, by simp [pyList, hlist], List.mem_map_of_mem _ hmem, ?_⟩
  intro htype
  have hfile : e.kind = .file := (hkind_iff e.kind).mp htype
  have hlensz : ((a.container.drop e.position).take e.size).length = e.size := by
    simp only [List.length_take, List.length_drop]
    omega
  unfold listPath at hlist
  cases hsp : splitPath p with
  | nil =>
    rw [hsp] at hlist
    have hres2 : resolve a.container (FUEL a.container) [e.name] a.rootOffset = .ok e := by
      rw [resolve_step e.name [] hlist, hfind]
    have hs2 : splitPath (p ++ "/" ++ e.name) = [e.name] := by
      rw [hsplit, hsp]
      rfl
    have hx : extract a (p ++ "/" ++ e.name) =
        .ok (e, (a.container.drop e.position).take e.size) := by
      simp [extract, hs2, hres2, hfile, readBytes, hbounds]
    exact ⟨by simp [pyExtract, hx], hlensz⟩
  | cons s rest =>
    simp only [hsp] at hlist
    cases hres : resolve a.container (FUEL a.container) (s :: rest) a.rootOffset with
    | error err =>
      rw [hres] at hlist
      exact absurd hlist (by simp)
    | ok d =>
      simp only [hres] at hlist
      by_cases hd : d.kind = .directory
      · rw [if_pos hd] at hlist
        have happend := resolve_append rest s a.rootOffset d e.name hres hd
        have hres2 : resolve a.container (FUEL a.container)
            ((s :: rest) ++ [e.name]) a.rootOffset = .ok e := by
          rw [happend, resolve_step e.name [] hlist, hfind]
        have hres3 : resolve a.container (FUEL a.container)
            (s :: (rest ++ [e.name])) a.rootOffset = .ok e := by
          simpa only [List.cons_append] using hres2
        have hs3 : splitPath (p ++ "/" ++ e.name) = s :: (rest ++ [e.name]) := by
          rw [hsplit, hsp]
          simp only [List.cons_append]
        have hx : extract a (p ++ "/" ++ e.name) =
            .ok (e, (a.container.drop e.position).take e.size) := by
          simp [extract, hs3, hres3, hfile, readBytes, hbounds]
        exact ⟨by simp [pyExtract, hx], hlensz⟩
      · rw [if_neg hd] at hlist
        exact absurd hlist (by simp)

/-- Witness for C10: listing `d` in `ARC` and re-extracting the file `a`
through its own name yields its 3 content bytes with `entry_type = 2`. -/
theorem claim10_witness :
    pyExtract ⟨ARC, 4⟩ ("d" ++ "/" ++ "a") =
      .ok (⟨"a", 2, 3⟩, [120, 121, 122]) := by
  have h := claim10_py_roundtrip ⟨ARC, 4⟩ "d"
    [mkEntry .file "a" 283 3 190, mkEntry .file "b" 286 2 0, mkEntry .file "C" 288 1 0]
    (mkEntry .file "a" 283 3 190) (by decide) (by decide) (by decide) (by decide) (by decide)
  have h4 := (h.2.2.2 (by decide)).1
  exact h4.trans (by decide)

end PK2
